import Mathlib

/-!
Verification of the SCHD dividend calculator's core engine: the market-hours
oracle, the price cache, the price fetcher (client and serverless handler),
the yield calculator, the income projector and the growth statistic, as
implemented in `src/App.tsx`, `src/constants.ts` and
`src/netlify/functions/get-schd-price.js`.

Numbers (prices, dividend amounts, percentages) are modelled as rationals;
epoch-millisecond timestamps as integers; calendar dates as integers encoded
`year*10000 + month*100 + day`, which preserves chronological order.  JavaScript
values that can be `NaN` or absent (a `localStorage` read, a parse result, a
JSON field) are modelled with `Option`, with `none` standing for the
missing/unparsable case; every comparison against such a `none` is `false`,
exactly as every comparison against `NaN` is `false` in JavaScript.
-/

set_option autoImplicit false

namespace SCHD

/-- A dividend payment record (`DividendData` in the repository): a calendar
date encoded as `year*10000 + month*100 + day`, and the per-share dividend
amount. -/
structure DividendPayment where
  date : Int
  dividend : ℚ
deriving Repr, DecidableEq

/-- The static dividend history from `src/constants.ts` (`DIVIDEND_HISTORY`),
newest first, 20 entries. -/
def DIVIDEND_HISTORY : List DividendPayment :=
  [ ⟨20250625, 26/100⟩, ⟨20250326, 25/100⟩, ⟨20241211, 26/100⟩, ⟨20240925, 25/100⟩,
    ⟨20240626, 27/100⟩, ⟨20240320, 20/100⟩, ⟨20231206, 25/100⟩, ⟨20230920, 22/100⟩,
    ⟨20230621, 22/100⟩, ⟨20230322, 20/100⟩, ⟨20221207, 23/100⟩, ⟨20220921, 21/100⟩,
    ⟨20220622, 23/100⟩, ⟨20220323, 17/100⟩, ⟨20211208, 21/100⟩, ⟨20210922, 20/100⟩,
    ⟨20210623, 18/100⟩, ⟨20210324, 17/100⟩, ⟨20201210, 20/100⟩, ⟨20200923, 18/100⟩ ]

/-- `src/App.tsx` line 943: cache duration (minutes) during trading hours. -/
def CACHE_DURATION_TRADING_MIN : ℚ := 15

/-- `src/App.tsx` line 944: cache duration (minutes) when the market is closed. -/
def CACHE_DURATION_CLOSED_HRS : ℚ := 24 * 60

/-- A US-Eastern wall-clock instant as produced by `getDay`/`getHours`/
`getMinutes` on the converted `Date` in `isMarketOpen`: `day` is 0 (Sunday)
through 6 (Saturday), `hour` and `minute` the time of day. -/
structure EtTime where
  day : Fin 7
  hour : Nat
  minute : Nat
deriving Repr, DecidableEq

/-- `src/App.tsx` lines 950-975, `isMarketOpen`.  The timezone conversion
(`toLocaleString` with the New-York zone, re-parsed into a `Date`) is an
environment effect; it is modelled by the `Option EtTime` argument, `none`
standing for a conversion that throws.  The source catches any exception and
fails open, returning `true`. -/
def isMarketOpen (et : Option EtTime) : Bool :=
  match et with
  | none => true
  | some t =>
    if t.day.val = 0 ∨ t.day.val = 6 then false
    else
      let timeInMinutes := t.hour * 60 + t.minute
      let marketOpenMin := 9 * 60 + 30
      let marketClose := 16 * 60
      decide (marketOpenMin ≤ timeInMinutes ∧ timeInMinutes < marketClose)

/-- `src/App.tsx` line 1035: the age of a cache entry in minutes,
`(now - timestamp) / (1000 * 60)`. -/
def cacheAgeMinutes (fetchedAt now : Int) : ℚ :=
  ((now : ℚ) - (fetchedAt : ℚ)) / (1000 * 60)

/-- `src/App.tsx` line 1038: the freshness threshold picked from the
market-open signal. -/
def cacheDuration (marketOpen : Bool) : ℚ :=
  if marketOpen then CACHE_DURATION_TRADING_MIN else CACHE_DURATION_CLOSED_HRS

/-- The cache-validity test of `managePriceFetch` (`src/App.tsx` line 1040),
factored out: an entry fetched at `fetchedAt` is valid at `now` iff its age in
minutes is strictly below the threshold selected by `marketOpen`. -/
def isValid (fetchedAt now : Int) (marketOpen : Bool) : Bool :=
  decide (cacheAgeMinutes fetchedAt now < cacheDuration marketOpen)

/-- Outcome of `managePriceFetch`: either use a cached price without fetching
(`useCache p`, with `p = none` when the stored string parsed to `NaN`), or run
`fetchSharePrice`. -/
inductive FetchDecision where
  | useCache (price : Option ℚ)
  | fetch
deriving Repr, DecidableEq

/-- `src/App.tsx` lines 1027-1047, `managePriceFetch`.  `cachedPrice` and
`cachedTimestamp` are the two `localStorage` reads: the outer `Option` is
`none` when the key is absent or the stored string is empty (both falsy in the
`if (cachedPrice && cachedTimestamp)` guard); the inner `Option` is the result
of `parseFloat` / `parseInt`, `none` for `NaN`.  A `NaN` timestamp makes
`ageInMinutes` `NaN`, so the `<` test is false and the code falls through to a
fetch; a `NaN` price with a fresh valid timestamp is passed to `setSharePrice`
unchecked. -/
def managePriceFetch (cachedPrice : Option (Option ℚ)) (cachedTimestamp : Option (Option Int))
    (now : Int) (marketOpen : Bool) : FetchDecision :=
  match cachedPrice, cachedTimestamp with
  | some price, some parsedTs =>
    match parsedTs with
    | some ts =>
      if cacheAgeMinutes ts now < cacheDuration marketOpen then .useCache price else .fetch
    | none => .fetch
  | some _, none => .fetch
  | none, _ => .fetch

/-- The slice of the application state that the price fetcher touches:
`sharePrice`, the `priceError` flag (modelled as a `Bool`: `true` iff the
error string is non-null) and the loading flag. -/
structure AppState where
  sharePrice : ℚ
  priceError : Bool
  isPriceLoading : Bool
deriving Repr, DecidableEq

/-- The JSON body the client receives from the serverless endpoint, after a
successful parse: `price` is the numeric `price` field, `none` when the field
is missing or not a number. -/
structure PriceJson where
  price : Option ℚ
deriving Repr, DecidableEq

/-- What the client's `fetch` call can resolve to: a thrown network exception,
or an HTTP response with an `ok` flag and a body (`none` when the body is not
valid JSON, so that `response.json()` throws). -/
inductive ClientResponse where
  | networkError
  | response (ok : Bool) (body : Option PriceJson)
deriving Repr, DecidableEq

/-- The `catch` block of `fetchSharePrice` (`src/App.tsx` lines 1018-1024):
price set to the fixed fallback 27, error flag raised, loading cleared. -/
def fallbackState (s : AppState) : AppState :=
  { s with sharePrice := 27, priceError := true, isPriceLoading := false }

/-- `src/App.tsx` lines 1000-1025, `fetchSharePrice`, as a state transition on
the response.  Success requires `response.ok` and a truthy `data.price`
(present, numeric and nonzero — JavaScript truthiness); every other path throws
into the `catch` block and yields `fallbackState`. -/
def fetchSharePrice (resp : ClientResponse) (s : AppState) : AppState :=
  match resp with
  | .networkError => fallbackState s
  | .response ok body =>
    if ok then
      match body with
      | some data =>
        match data.price with
        | some p =>
          if p ≠ 0 then
            { s with sharePrice := p, priceError := false, isPriceLoading := false }
          else fallbackState s
        | none => fallbackState s
      | none => fallbackState s
    else fallbackState s

/-- The upstream (Finnhub) response as seen by the serverless handler:
`status` the HTTP status, `body` `none` when the body is not valid JSON,
`some none` when the `c` field is missing or not a number, `some (some c)`
when `c` is the numeric quote.  (Strict JSON parsing cannot produce `NaN`.) -/
structure UpstreamResponse where
  status : Nat
  body : Option (Option ℚ)
deriving Repr, DecidableEq

/-- What the handler's `fetch` of the Finnhub URL can resolve to. -/
inductive Upstream where
  | exception
  | response (r : UpstreamResponse)
deriving Repr, DecidableEq

/-- The WHATWG `Response.ok` predicate: status in the range 200-299. -/
def statusOk (status : Nat) : Bool := decide (200 ≤ status ∧ status < 300)

/-- The serverless handler's reply: an HTTP status code, and the `price` field
of its JSON body (`none` for the `{ error: ... }` bodies, which carry no
`price` field). -/
structure HandlerResult where
  statusCode : Nat
  price : Option ℚ
deriving Repr, DecidableEq

/-- `src/netlify/functions/get-schd-price.js`, `exports.handler`: 500 when the
API key is not configured; the upstream status forwarded with an error body
when the upstream response is not ok; 500 on an unparsable body (the thrown
parse error lands in the outer catch) or a missing/non-numeric/non-positive
`c` field; otherwise 200 with `{ price: c }`. -/
def handler (apiKeyPresent : Bool) (u : Upstream) : HandlerResult :=
  if apiKeyPresent then
    match u with
    | .exception => ⟨500, none⟩
    | .response r =>
      if statusOk r.status then
        match r.body with
        | some (some c) => if c ≤ 0 then ⟨500, none⟩ else ⟨200, some c⟩
        | some none => ⟨500, none⟩
        | none => ⟨500, none⟩
      else ⟨r.status, none⟩
  else ⟨500, none⟩

/-- The handler's reply as the client sees it: the `ok` flag is derived from
the status code, and the body is always well-formed JSON (the handler always
`JSON.stringify`s an object), whose `price` field is `HandlerResult.price`. -/
def wire (h : HandlerResult) : ClientResponse :=
  .response (statusOk h.statusCode) (some ⟨h.price⟩)

/-- The yield-method toggle (`src/App.tsx` line 980). -/
inductive YieldMethod where
  | forward
  | ttm
deriving Repr, DecidableEq

/-- `src/App.tsx` lines 994-998: the memoized subsequence of the history whose
date is not after `asOf` (the current day). -/
def pastDividends (history : List DividendPayment) (asOf : Int) : List DividendPayment :=
  history.filter (fun d => d.date ≤ asOf)

/-- The `annualDividendPerShare` computation of the yield-recomputation effect
(`src/App.tsx` lines 1055-1073): forward = most recent entry of the full
history times 4 (0 on an empty history); TTM = sum of the first four entries
of `pastDividends` when at least four exist, else 0. -/
def annualDividendPerShare (method : YieldMethod) (history : List DividendPayment)
    (asOf : Int) : ℚ :=
  match method with
  | .forward =>
    match history with
    | [] => 0
    | d :: _ => d.dividend * 4
  | .ttm =>
    let past := pastDividends history asOf
    if 4 ≤ past.length then ((past.take 4).map (fun d => d.dividend)).sum else 0

/-- `src/App.tsx` lines 1053-1082, the yield-recomputation effect, as a
function from the previous `dividendYield` value to the next one.  The whole
body is guarded by `sharePrice > 0`: when the guard fails no setter runs and
the previous yield survives; when it holds, the yield becomes
`annual / price * 100` if the annualized dividend is positive and 0
otherwise. -/
def updateDividendYield (prevYield price : ℚ) (method : YieldMethod)
    (history : List DividendPayment) (asOf : Int) : ℚ :=
  if 0 < price then
    let annual := annualDividendPerShare method history asOf
    if 0 < annual then annual / price * 100 else 0
  else prevYield

/-- The four projected income figures (`src/App.tsx` line 1098 and 1101-1106). -/
structure PeriodicIncome where
  annually : ℚ
  quarterly : ℚ
  monthly : ℚ
  daily : ℚ
deriving Repr, DecidableEq

/-- `src/App.tsx` lines 1096-1107, `calculateDividends`: all zeros when the
investment, the share price or the yield is non-positive; otherwise the flat
period fractions of `investment * (yield / 100)`. -/
def calculateDividends (investment sharePrice dividendYield : ℚ) : PeriodicIncome :=
  if investment ≤ 0 ∨ sharePrice ≤ 0 ∨ dividendYield ≤ 0 then
    ⟨0, 0, 0, 0⟩
  else
    let yearly := investment * (dividendYield / 100)
    ⟨yearly, yearly / 4, yearly / 12, yearly / 365⟩

/-- `src/App.tsx` lines 1120-1127, `dividendGrowth`, before the final
`toFixed(2)` display formatting: `none` models the `N/A` string, `some v`
the numeric growth percentage. -/
def dividendGrowth (past : List DividendPayment) : Option ℚ :=
  if past.length < 8 then none
  else
    let lastYearDividend := ((past.take 4).map (fun d => d.dividend)).sum
    let prevYearDividend := (((past.drop 4).take 4).map (fun d => d.dividend)).sum
    if prevYearDividend = 0 then none
    else some ((lastYearDividend - prevYearDividend) / prevYearDividend * 100)

/-- The annualized per-share dividend as the specification words it (§4.4):
forward = `dividendHistory[0].amountPerShare × 4` from the full history, 0 on
an empty history; TTM = the sum of the 4 most recent entries of
`pastDividends`, 0 when fewer than 4 past entries exist. -/
def specAnnualDividendPerShare (method : YieldMethod) (history : List DividendPayment)
    (asOf : Int) : ℚ :=
  match method with
  | .forward =>
    match history with
    | [] => 0
    | d :: _ => d.dividend * 4
  | .ttm =>
    let past := pastDividends history asOf
    if 4 ≤ past.length then ((past.take 4).map (fun d => d.dividend)).sum else 0

/-- The yield as the specification words it for a positive price:
`(annualizedPerShareDividend / price) × 100`. -/
def specComputeYield (price : ℚ) (method : YieldMethod) (history : List DividendPayment)
    (asOf : Int) : ℚ :=
  specAnnualDividendPerShare method history asOf / price * 100

/-- Claim C2: a cache entry is valid iff its age in minutes is strictly less
than 15 when the market is open and 1440 when it is closed; concretely, with
the market open an entry aged 14 minutes is valid and one aged 16 minutes is
not, and with the market closed an entry aged 23 hours is valid and one aged
25 hours is not. -/
theorem isValid_iff_age_lt_threshold :
    (∀ (fetchedAt now : Int) (marketOpen : Bool),
      isValid fetchedAt now marketOpen = true ↔
        ((now : ℚ) - (fetchedAt : ℚ)) / (1000 * 60) < (if marketOpen then 15 else 1440))
    ∧ isValid 0 (14 * 60000) true = true
    ∧ isValid 0 (16 * 60000) true = false
    ∧ isValid 0 (23 * 3600000) false = true
    ∧ isValid 0 (25 * 3600000) false = false := by
  have key : ∀ (fetchedAt now : Int) (marketOpen : Bool),
      isValid fetchedAt now marketOpen = true ↔
        ((now : ℚ) - (fetchedAt : ℚ)) / (1000 * 60) < (if marketOpen then 15 else 1440) := by
    intro fetchedAt now marketOpen
    simp only [isValid, cacheAgeMinutes, cacheDuration, CACHE_DURATION_TRADING_MIN,
      CACHE_DURATION_CLOSED_HRS, decide_eq_true_eq]
    cases marketOpen <;> norm_num
  refine ⟨key, ?_, ?_, ?_, ?_⟩
  · rw [key]; norm_num
  · rw [Bool.eq_false_iff, Ne, key]; norm_num
  · rw [key]; norm_num
  · rw [Bool.eq_false_iff, Ne, key]; norm_num

/-- Claim C7: `isMarketOpen` is total; after a successful timezone conversion
it returns `true` exactly when the US-Eastern weekday is Monday through Friday
and the time of day lies in [09:30, 16:00), exclusive of the upper bound; when
the conversion fails it does not throw but fails open, returning `true`. -/
theorem isMarketOpen_spec :
    isMarketOpen none = true
    ∧ ∀ t : EtTime,
        isMarketOpen (some t) = true ↔
          (1 ≤ t.day.val ∧ t.day.val ≤ 5
            ∧ 9 * 60 + 30 ≤ t.hour * 60 + t.minute ∧ t.hour * 60 + t.minute < 16 * 60) := by
  refine ⟨rfl, fun t => ?_⟩
  have hlt : t.day.val < 7 := t.day.isLt
  simp only [isMarketOpen]
  split_ifs with h
  · simp only [Bool.false_eq_true, false_iff]
    rintro ⟨h1, h5, -, -⟩
    omega
  · simp only [decide_eq_true_eq]
    constructor
    · rintro ⟨ho, hc⟩
      refine ⟨?_, ?_, ho, hc⟩ <;> omega
    · rintro ⟨-, -, ho, hc⟩
      exact ⟨ho, hc⟩

/-- Claim C4 counterexample: at investment 10000, share price 0 and yield 5%
the projector returns an annual income of 0, while the claim's "otherwise"
branch (investment > 0, yield > 0) demands 10000 × 5 / 100 = 500 ≠ 0. -/
theorem calculateDividends_claim_counterexample :
    (calculateDividends 10000 0 5).annually = 0
    ∧ (10000 : ℚ) * 5 / 100 ≠ 0 := by
  constructor
  · decide
  · norm_num

/-- Claim C4 as amended: the projector returns all zeros when the investment
or the yield is non-positive, and delivers the flat period fractions of
`investment × yieldPercent / 100` only when the investment, the yield and
additionally the current share price are all positive. -/
theorem calculateDividends_spec (investment sharePrice dividendYield : ℚ) :
    ((investment ≤ 0 ∨ dividendYield ≤ 0) →
      calculateDividends investment sharePrice dividendYield = ⟨0, 0, 0, 0⟩)
    ∧ (0 < investment → 0 < sharePrice → 0 < dividendYield →
        calculateDividends investment sharePrice dividendYield =
          ⟨investment * dividendYield / 100, investment * dividendYield / 100 / 4,
            investment * dividendYield / 100 / 12, investment * dividendYield / 100 / 365⟩) := by
  constructor
  · intro h
    simp only [calculateDividends]
    rw [if_pos]
    tauto
  · intro hi hp hy
    simp only [calculateDividends]
    rw [if_neg]
    · have : investment * (dividendYield / 100) = investment * dividendYield / 100 := by ring
      simp [this]
    · push_neg
      exact ⟨hi, hp, hy⟩

/-- Witness for the amended C4 at concrete inputs: a negative investment gives
all zeros, and investment 10000 at price 78.50 and yield 2% gives an annual
income of 200 split into the flat period fractions. -/
theorem calculateDividends_spec_witness :
    calculateDividends (-1) 50 3 = ⟨0, 0, 0, 0⟩
    ∧ calculateDividends 10000 (785/10) 2 = ⟨200, 50, 200/12, 200/365⟩ := by
  constructor
  · exact (calculateDividends_spec (-1) 50 3).1 (Or.inl (by norm_num))
  · rw [(calculateDividends_spec 10000 (785/10) 2).2 (by norm_num) (by norm_num) (by norm_num)]
    norm_num

/-- Claim C10: the projector additionally guards on the share price — for a
positive investment and a positive yield, a non-positive current share price
still forces all four periods to 0. -/
theorem calculateDividends_price_guard (investment sharePrice dividendYield : ℚ)
    (hi : 0 < investment) (hy : 0 < dividendYield) (hp : sharePrice ≤ 0) :
    calculateDividends investment sharePrice dividendYield = ⟨0, 0, 0, 0⟩ := by
  simp only [calculateDividends]
  rw [if_pos (Or.inr (Or.inl hp))]

/-- Witness for C10 at investment 10000, share price −1, yield 5. -/
theorem calculateDividends_price_guard_witness :
    (0 : ℚ) < 10000 ∧ (0 : ℚ) < 5 ∧ (-1 : ℚ) ≤ 0
    ∧ calculateDividends 10000 (-1) 5 = ⟨0, 0, 0, 0⟩ :=
  ⟨by norm_num, by norm_num, by norm_num,
    calculateDividends_price_guard 10000 (-1) 5 (by norm_num) (by norm_num) (by norm_num)⟩

/-- Claim C5 counterexample: with price 0 (which is ≤ 0) the
yield-recomputation effect leaves the previous yield 3.48 in place — the new
yield is 3.48, not 0, because the whole effect body is guarded by
`sharePrice > 0`. -/
theorem updateDividendYield_claim_counterexample :
    updateDividendYield (348/100) 0 .forward DIVIDEND_HISTORY 20251012 = 348/100
    ∧ (348/100 : ℚ) ≠ 0 := by
  constructor
  · simp only [updateDividendYield]
    rw [if_neg (by norm_num)]
  · norm_num

/-- Claim C5 as amended: for every price ≤ 0 the yield recomputation performs
no update at all — the previous yield value survives unchanged (so the result
is 0 only when the previous yield was already 0). -/
theorem updateDividendYield_nonpos_price (prevYield price : ℚ) (method : YieldMethod)
    (history : List DividendPayment) (asOf : Int) (hp : price ≤ 0) :
    updateDividendYield prevYield price method history asOf = prevYield := by
  simp only [updateDividendYield]
  rw [if_neg (not_lt.mpr hp)]

/-- Witness for the amended C5: at price −2 with previous yield 7 the
recomputation returns 7. -/
theorem updateDividendYield_nonpos_price_witness :
    ((-2 : ℚ) ≤ 0) ∧ updateDividendYield 7 (-2) .ttm [] 0 = 7 :=
  ⟨by norm_num, updateDividendYield_nonpos_price 7 (-2) .ttm [] 0 (by norm_num)⟩

/-- When every dividend amount in the history is non-negative, so is the
annualized per-share dividend, under either method. -/
theorem annualDividendPerShare_nonneg (method : YieldMethod) (history : List DividendPayment)
    (asOf : Int) (h : ∀ d ∈ history, 0 ≤ d.dividend) :
    0 ≤ annualDividendPerShare method history asOf := by
  cases method with
  | forward =>
    cases history with
    | nil => simp [annualDividendPerShare]
    | cons d rest =>
      have hd := h d (List.mem_cons_self d rest)
      simp only [annualDividendPerShare]
      positivity
  | ttm =>
    simp only [annualDividendPerShare]
    split_ifs with hlen
    · apply List.sum_nonneg
      intro x hx
      simp only [List.mem_map] at hx
      obtain ⟨d, hd, rfl⟩ := hx
      have hpast : d ∈ pastDividends history asOf := List.take_subset 4 _ hd
      exact h d (List.mem_of_mem_filter hpast)
    · exact le_refl 0

/-- Claim C1: for every positive price (and a history of non-negative dividend
amounts, as the data model requires), the yield recomputation produces exactly
the specification's `(annualizedPerShareDividend / price) × 100`, with the
annualized dividend given by `specAnnualDividendPerShare` — forward: most
recent entry of the full history times 4, 0 on an empty history; TTM: sum of
the 4 most recent past entries — and in the TTM case the yield is 0 whenever
fewer than 4 past entries exist. -/
theorem computeYield_matches_spec (prevYield price : ℚ) (method : YieldMethod)
    (history : List DividendPayment) (asOf : Int)
    (hp : 0 < price) (hd : ∀ d ∈ history, 0 ≤ d.dividend) :
    updateDividendYield prevYield price method history asOf
      = specComputeYield price method history asOf
    ∧ (method = .ttm → (pastDividends history asOf).length < 4 →
        updateDividendYield prevYield price method history asOf = 0) := by
  have hspec : specAnnualDividendPerShare method history asOf
      = annualDividendPerShare method history asOf := by
    cases method <;> rfl
  have h1 : updateDividendYield prevYield price method history asOf
      = specComputeYield price method history asOf := by
    simp only [updateDividendYield, specComputeYield, hspec]
    rw [if_pos hp]
    split_ifs with hpos
    · rfl
    · have hn := annualDividendPerShare_nonneg method history asOf hd
      have h0 : annualDividendPerShare method history asOf = 0 := le_antisymm (not_lt.mp hpos) hn
      rw [h0, zero_div, zero_mul]
  refine ⟨h1, ?_⟩
  rintro rfl hlen
  rw [h1]
  simp only [specComputeYield, specAnnualDividendPerShare]
  rw [if_neg (not_le.mpr hlen), zero_div, zero_mul]

/-- Witness for C1: at price 78.50 over the repository's dividend history with
the forward method, the recomputed yield coincides with the specification
formula; furthermore a TTM computation over an empty past gives yield 0. -/
theorem computeYield_matches_spec_witness :
    ((0 : ℚ) < 785/10)
    ∧ (∀ d ∈ DIVIDEND_HISTORY, 0 ≤ d.dividend)
    ∧ updateDividendYield (348/100) (785/10) .forward DIVIDEND_HISTORY 20251012
        = specComputeYield (785/10) .forward DIVIDEND_HISTORY 20251012
    ∧ updateDividendYield (348/100) (785/10) .ttm [] 0 = 0 := by
  have hd : ∀ d ∈ DIVIDEND_HISTORY, 0 ≤ d.dividend := by
    intro d hmem
    simp only [DIVIDEND_HISTORY, List.mem_cons, List.not_mem_nil, or_false] at hmem
    rcases hmem with rfl|rfl|rfl|rfl|rfl|rfl|rfl|rfl|rfl|rfl|rfl|rfl|rfl|rfl|rfl|rfl|rfl|rfl|rfl|rfl
      <;> norm_num
  refine ⟨by norm_num, hd, ?_, ?_⟩
  · exact (computeYield_matches_spec (348/100) (785/10) .forward DIVIDEND_HISTORY 20251012
      (by norm_num) hd).1
  · exact (computeYield_matches_spec (348/100) (785/10) .ttm [] 0 (by norm_num)
      (by intro d hmem; cases hmem)).2 rfl (by simp [pastDividends])

/-- Claim C8: the growth statistic is "not available" exactly when fewer than
8 past dividends exist or the prior four-quarter sum is 0 (so in particular
with exactly 7 past entries), and otherwise it is the numeric value
`(last four-quarter sum − prior four-quarter sum) / prior sum × 100`; being a
total function, it never crashes. -/
theorem dividendGrowth_spec :
    (∀ past : List DividendPayment,
        dividendGrowth past = none ↔
          past.length < 8
            ∨ (((past.drop 4).take 4).map (fun d => d.dividend)).sum = 0)
    ∧ (∀ past : List DividendPayment, 8 ≤ past.length →
        (((past.drop 4).take 4).map (fun d => d.dividend)).sum ≠ 0 →
        dividendGrowth past =
          some ((((past.take 4).map (fun d => d.dividend)).sum
              - (((past.drop 4).take 4).map (fun d => d.dividend)).sum)
            / (((past.drop 4).take 4).map (fun d => d.dividend)).sum * 100))
    ∧ (∀ past : List DividendPayment, past.length = 7 → dividendGrowth past = none) := by
  have key : ∀ past : List DividendPayment,
      dividendGrowth past = none ↔
        past.length < 8
          ∨ (((past.drop 4).take 4).map (fun d => d.dividend)).sum = 0 := by
    intro past
    simp only [dividendGrowth]
    split_ifs with h1 h2
    · exact iff_of_true rfl (Or.inl h1)
    · exact iff_of_true rfl (Or.inr h2)
    · refine iff_of_false (by simp) ?_
      rintro (hc | hc)
      · exact h1 hc
      · exact h2 hc
  refine ⟨key, fun past hlen hsum => ?_, fun past hlen => ?_⟩
  · simp only [dividendGrowth]
    rw [if_neg (not_lt.mpr hlen), if_neg hsum]
  · rw [key]
    exact Or.inl (by omega)

/-- Witness for C8: a uniform 8-entry history has growth 0 (available), and a
7-entry history reports "not available". -/
theorem dividendGrowth_spec_witness :
    dividendGrowth (List.replicate 8 ⟨0, 1⟩) = some 0
    ∧ dividendGrowth (List.replicate 7 ⟨0, 1⟩) = none := by
  have hdrop : ((((List.replicate 8 (⟨0, 1⟩ : DividendPayment)).drop 4).take 4).map
      (fun d => d.dividend)).sum = 4 := by
    simp [List.drop_replicate, List.take_replicate, List.map_replicate, List.sum_replicate]
    norm_num
  have htake : ((((List.replicate 8 (⟨0, 1⟩ : DividendPayment)).take 4)).map
      (fun d => d.dividend)).sum = 4 := by
    simp [List.take_replicate, List.map_replicate, List.sum_replicate]
    norm_num
  constructor
  · rw [dividendGrowth_spec.2.1 (List.replicate 8 ⟨0, 1⟩) (by simp)
      (by rw [hdrop]; norm_num)]
    rw [htake, hdrop]
    norm_num
  · exact dividendGrowth_spec.2.2 (List.replicate 7 ⟨0, 1⟩) (by simp)

/-- Claim C6, the failing input: with the stored price string unparsable
(`parseFloat` yields `NaN`, modelled `some none`), the stored timestamp
parsable and fresh, `now` = 0 and the market open, `managePriceFetch` takes
the cached branch and passes the `NaN` price to `setSharePrice` — it neither
treats the entry as absent nor triggers a fresh fetch, contradicting the
claim. -/
theorem managePriceFetch_uses_unparsable_price :
    managePriceFetch (some none) (some (some 0)) 0 true = .useCache none
    ∧ managePriceFetch (some none) (some (some 0)) 0 true ≠ .fetch := by
  have h : managePriceFetch (some none) (some (some 0)) 0 true = .useCache none := by
    simp only [managePriceFetch]
    rw [if_pos]
    simp only [cacheAgeMinutes, cacheDuration, CACHE_DURATION_TRADING_MIN]
    norm_num
  exact ⟨h, by rw [h]; intro hc; cases hc⟩

/-- The whole price pipeline as the client experiences it: the serverless
handler's reply to an upstream outcome, sent over the wire and consumed by
`fetchSharePrice`. -/
def composedFetch (apiKeyPresent : Bool) (u : Upstream) (s : AppState) : AppState :=
  fetchSharePrice (wire (handler apiKeyPresent u)) s

/-- Claim C3: a thrown network exception, and every handler reply other than a
success, drive the client into the single fallback behavior — share price set
to the fixed constant 27 and the user-visible error flag raised, regardless of
the previous in-memory price; and the fetch succeeds (error flag clear)
exactly when the endpoint's upstream supplied a numeric quote strictly greater
than 0, in which case the new share price is that quote. -/
theorem fetchSharePrice_fallback_and_success (apiKeyPresent : Bool) (u : Upstream)
    (s : AppState) :
    (fetchSharePrice .networkError s).sharePrice = 27
    ∧ (fetchSharePrice .networkError s).priceError = true
    ∧ (((composedFetch apiKeyPresent u s).sharePrice = 27
          ∧ (composedFetch apiKeyPresent u s).priceError = true)
        ∨ ((composedFetch apiKeyPresent u s).priceError = false
          ∧ 0 < (composedFetch apiKeyPresent u s).sharePrice))
    ∧ ((composedFetch apiKeyPresent u s).priceError = false ↔
        apiKeyPresent = true
        ∧ ∃ r : UpstreamResponse, u = .response r ∧ statusOk r.status = true
          ∧ ∃ c : ℚ, r.body = some (some c) ∧ 0 < c
            ∧ (composedFetch apiKeyPresent u s).sharePrice = c) := by
  refine ⟨rfl, rfl, ?_⟩
  cases apiKeyPresent with
  | false =>
    have h : composedFetch false u s = fallbackState s := rfl
    rw [h]
    refine ⟨Or.inl ⟨rfl, rfl⟩, ?_, ?_⟩
    · intro hc
      simp [fallbackState] at hc
    · rintro ⟨hc, -⟩
      exact absurd hc (by decide)
  | true =>
    cases u with
    | exception =>
      have h : composedFetch true .exception s = fallbackState s := rfl
      rw [h]
      refine ⟨Or.inl ⟨rfl, rfl⟩, ?_, ?_⟩
      · intro hc
        simp [fallbackState] at hc
      · rintro ⟨-, r, hr, -⟩
        exact absurd hr (by simp)
    | response r =>
      cases hok : statusOk r.status with
      | false =>
        have h : composedFetch true (.response r) s = fallbackState s := by
          simp only [composedFetch, handler, wire]
          rw [hok]
          simp only [Bool.false_eq_true, if_false, if_true]
          rw [hok]
          rfl
        rw [h]
        refine ⟨Or.inl ⟨rfl, rfl⟩, ?_, ?_⟩
        · intro hc
          simp [fallbackState] at hc
        · rintro ⟨-, r2, hr, hok2, -⟩
          obtain rfl : r = r2 := by injection hr
          rw [hok] at hok2
          exact absurd hok2 (by decide)
      | true =>
        rcases hbody : r.body with - | (- | c)
        · have h : composedFetch true (.response r) s = fallbackState s := by
            simp only [composedFetch, handler, wire]
            rw [hok, hbody]
            simp only [if_true]
            rfl
          rw [h]
          refine ⟨Or.inl ⟨rfl, rfl⟩, ?_, ?_⟩
          · intro hc
            simp [fallbackState] at hc
          · rintro ⟨-, r2, hr, -, c, hc, -⟩
            obtain rfl : r = r2 := by injection hr
            rw [hbody] at hc
            exact absurd hc (by simp)
        · have h : composedFetch true (.response r) s = fallbackState s := by
            simp only [composedFetch, handler, wire]
            rw [hok, hbody]
            simp only [if_true]
            rfl
          rw [h]
          refine ⟨Or.inl ⟨rfl, rfl⟩, ?_, ?_⟩
          · intro hc
            simp [fallbackState] at hc
          · rintro ⟨-, r2, hr, -, c, hc, -⟩
            obtain rfl : r = r2 := by injection hr
            rw [hbody] at hc
            exact absurd hc (by simp)
        · rcases le_or_lt c 0 with hc | hc
          · have h : composedFetch true (.response r) s = fallbackState s := by
              simp only [composedFetch, handler, wire]
              rw [hok, hbody]
              simp only [if_true]
              rw [if_pos hc]
              rfl
            rw [h]
            refine ⟨Or.inl ⟨rfl, rfl⟩, ?_, ?_⟩
            · intro hcon
              simp [fallbackState] at hcon
            · rintro ⟨-, r2, hr, -, c2, hc2, hpos, -⟩
              obtain rfl : r = r2 := by injection hr
              rw [hbody] at hc2
              obtain rfl : c = c2 := by
                injection hc2 with hc2
                injection hc2
              exact absurd hpos (not_lt.mpr hc)
          · have h : composedFetch true (.response r) s
                = { s with sharePrice := c, priceError := false, isPriceLoading := false } := by
              simp only [composedFetch, handler, wire]
              rw [hok, hbody]
              simp only [if_true]
              rw [if_neg (not_le.mpr hc)]
              simp only [fetchSharePrice, statusOk]
              rw [if_pos (by norm_num), if_pos hc.ne']
            rw [h]
            exact ⟨Or.inr ⟨rfl, hc⟩,
              fun _ => ⟨rfl, r, rfl, hok, c, hbody, hc, rfl⟩, fun _ => rfl⟩

/-- Claim C9, the end-to-end forward scenario on the repository's history:
the history has at least 16 entries and its most recent entry pays 0.26 per
share; at price 78.50 under the Forward method the annualized dividend is
0.26 × 4 = 1.04 and the recomputed yield is 208/157 ≈ 1.32%; projecting
investment 10000 at that yield gives exactly 20800/157 ≈ $132.48 annually,
5200/157 ≈ $33.12 quarterly, 5200/471 ≈ $11.04 monthly and
4160/11461 ≈ $0.36 daily (each approximation within half a cent, the
correct-rounding tolerance). -/
theorem endToEnd_forward_scenario :
    16 ≤ DIVIDEND_HISTORY.length
    ∧ DIVIDEND_HISTORY.head?.map (fun d => d.dividend) = some (26/100)
    ∧ annualDividendPerShare .forward DIVIDEND_HISTORY 20251012 = 104/100
    ∧ updateDividendYield (348/100) (785/10) .forward DIVIDEND_HISTORY 20251012 = 208/157
    ∧ |(208/157 : ℚ) - 132/100| < 5/1000
    ∧ calculateDividends 10000 (785/10) (208/157)
        = ⟨20800/157, 5200/157, 5200/471, 4160/11461⟩
    ∧ |(20800/157 : ℚ) - 13248/100| < 5/1000
    ∧ |(5200/157 : ℚ) - 3312/100| < 5/1000
    ∧ |(5200/471 : ℚ) - 1104/100| < 5/1000
    ∧ |(4160/11461 : ℚ) - 36/100| < 5/1000 := by
  have hann : annualDividendPerShare .forward DIVIDEND_HISTORY 20251012 = 104/100 := by
    simp only [DIVIDEND_HISTORY, annualDividendPerShare]
    norm_num
  refine ⟨by simp [DIVIDEND_HISTORY], by simp [DIVIDEND_HISTORY], hann, ?_, ?_, ?_, ?_, ?_, ?_, ?_⟩
  · simp only [updateDividendYield, hann]
    rw [if_pos (by norm_num), if_pos (by norm_num)]
    norm_num
  · rw [abs_sub_lt_iff]
    constructor <;> norm_num
  · simp only [calculateDividends]
    rw [if_neg (by norm_num)]
    simp only [PeriodicIncome.mk.injEq]
    norm_num
  · rw [abs_sub_lt_iff]
    constructor <;> norm_num
  · rw [abs_sub_lt_iff]
    constructor <;> norm_num
  · rw [abs_sub_lt_iff]
    constructor <;> norm_num
  · rw [abs_sub_lt_iff]
    constructor <;> norm_num

end SCHD
